import Mathlib

/-!
Verification of the mux-rs wire codec and framer (`src/transport/message.rs`,
`src/transport/mux_framer.rs`, `src/lib.rs`).

Bytes are modelled as `Nat` (each element of a byte list is a value `< 256`;
encoders only emit values `< 256` by construction, via `% 256`/`&&& 0xff`).
Rust `u16`/`u32`/`u64` fields are `Nat` with explicit bounds where overflow
matters, `i8` type codes are `Int`, and a Rust `panic!` (including `.unwrap()`
on a failed read or UTF-8 conversion) is modelled as `Except.error (.panic msg)`:
the source's decode paths have no typed error channel, every failure there is a
panic.
-/

namespace MuxRs

/-- The only failure mode in `message.rs`: a Rust panic (from `panic!` or from
`.unwrap()` on a failed `Cursor` read / `String::from_utf8`).  The source has no
typed error values; `msg` is the panic message. -/
inductive MuxError where
  | panic (msg : String)
deriving DecidableEq, Repr

instance {ε α} [DecidableEq ε] [DecidableEq α] : DecidableEq (Except ε α) := fun a b =>
  match a, b with
  | .ok x, .ok y =>
    match decEq x y with
    | isTrue h => isTrue (by rw [h])
    | isFalse h => isFalse (by intro hc; cases hc; exact h rfl)
  | .error x, .error y =>
    match decEq x y with
    | isTrue h => isTrue (by rw [h])
    | isFalse h => isFalse (by intro hc; cases hc; exact h rfl)
  | .ok _, .error _ => isFalse (by intro hc; cases hc)
  | .error _, .ok _ => isFalse (by intro hc; cases hc)

/-- Panic message used for a `Cursor` read that runs off the end of the buffer
(`read_exact`/`read_u16` etc. return `UnexpectedEof`, which the source unwraps). -/
def eofMsg : String := "failed to fill whole buffer"

/-! ## byteorder: big-endian writes (`write_u16/u32/u64::<BigEndian>`) -/

/-- Big-endian bytes of `n as u16` (`write_u16::<BigEndian>`). -/
def u16be (n : Nat) : List Nat := [n / 256 % 256, n % 256]

/-- Big-endian bytes of `n as u32` (`write_u32::<BigEndian>`). -/
def u32be (n : Nat) : List Nat :=
  [n / 16777216 % 256, n / 65536 % 256, n / 256 % 256, n % 256]

/-- Big-endian bytes of `n as u64` (`write_u64::<BigEndian>`). -/
def u64be (n : Nat) : List Nat :=
  [n / 72057594037927936 % 256, n / 281474976710656 % 256, n / 1099511627776 % 256,
   n / 4294967296 % 256, n / 16777216 % 256, n / 65536 % 256, n / 256 % 256, n % 256]

/-! ## byteorder / Cursor reads.  Each reader consumes a prefix of the byte list
and returns the value together with the remaining bytes; running off the end is
the unwrapped `UnexpectedEof` panic. -/

def readByte : List Nat → Except MuxError (Nat × List Nat)
  | [] => .error (.panic eofMsg)
  | b :: rest => .ok (b, rest)

def readU16 : List Nat → Except MuxError (Nat × List Nat)
  | a :: b :: rest => .ok (a * 256 + b, rest)
  | _ => .error (.panic eofMsg)

def readU32 : List Nat → Except MuxError (Nat × List Nat)
  | a :: b :: c :: d :: rest => .ok (a * 16777216 + b * 65536 + c * 256 + d, rest)
  | _ => .error (.panic eofMsg)

def readU64 : List Nat → Except MuxError (Nat × List Nat)
  | a :: b :: c :: d :: e :: f :: g :: h :: rest =>
    .ok (a * 72057594037927936 + b * 281474976710656 + c * 1099511627776 +
         d * 4294967296 + e * 16777216 + f * 65536 + g * 256 + h, rest)
  | _ => .error (.panic eofMsg)

/-- `read_exact` into a buffer of length `n`. -/
def readExact (n : Nat) (l : List Nat) : Except MuxError (List Nat × List Nat) :=
  if n ≤ l.length then .ok (l.take n, l.drop n) else .error (.panic eofMsg)

/-! ## UTF-8 validity (Rust `String::from_utf8`).

`utf8Valid` is the standard UTF-8 acceptance predicate used by Rust's
`str::from_utf8` run-length validation: ASCII passes through; `0x80..=0xC1`
are invalid lead bytes; 2-byte leads `0xC2..=0xDF`, 3-byte leads `0xE0..=0xEF`
(with the `0xE0`/`0xED` overlong/surrogate restrictions), and 4-byte leads
`0xF0..=0xF4` (with the `0xF0`/`0xF4` restrictions) require matching
continuation bytes `0x80..=0xBF`. -/

def utf8Cont (c : Nat) : Bool := 128 ≤ c && c ≤ 191

def utf8Valid : List Nat → Bool
  | [] => true
  | b :: rest =>
    if b ≤ 127 then utf8Valid rest
    else if b < 194 then false
    else if b ≤ 223 then
      match rest with
      | c1 :: r => utf8Cont c1 && utf8Valid r
      | [] => false
    else if b ≤ 239 then
      match rest with
      | c1 :: c2 :: r =>
        (if b = 224 then 160 ≤ c1 && c1 ≤ 191
         else if b = 237 then 128 ≤ c1 && c1 ≤ 159
         else utf8Cont c1) && utf8Cont c2 && utf8Valid r
      | _ => false
    else if b ≤ 244 then
      match rest with
      | c1 :: c2 :: c3 :: r =>
        (if b = 240 then 144 ≤ c1 && c1 ≤ 191
         else if b = 244 then 128 ≤ c1 && c1 ≤ 143
         else utf8Cont c1) && utf8Cont c2 && utf8Cont c3 && utf8Valid r
      | _ => false
    else false

/-- A Rust `String`: a byte vector carrying the UTF-8 validity invariant. -/
def Str := { l : List Nat // utf8Valid l = true }

instance : DecidableEq Str := fun a b =>
  match decEq a.val b.val with
  | isTrue h => isTrue (Subtype.ext h)
  | isFalse h => isFalse (fun hc => h (congrArg Subtype.val hc))

/-- `String::new()`. -/
def Str.empty : Str := ⟨[], rfl⟩

/-- `String::from_utf8(bytes).unwrap()`: validates and re-wraps the same bytes,
panicking on invalid UTF-8 (the source always calls `.unwrap()` on it). -/
def from_utf8 (l : List Nat) : Except MuxError Str :=
  if h : utf8Valid l = true then .ok ⟨l, h⟩ else .error (.panic "invalid utf-8 sequence")

/-! ## `mod types`: wire type codes (signed 8-bit, as `Int`). -/

namespace types

def TREQ : Int := 1
def RREQ : Int := -1
def TDISPATCH : Int := 2
def RDISPATCH : Int := -2
def TDRAIN : Int := 64
def RDRAIN : Int := -64
def TPING : Int := 65
def RPING : Int := -65
def TDISCARDED : Int := 66
def RDISCARDED : Int := -66
def TLEASE : Int := 67
def TINIT : Int := 68
def RINIT : Int := -68
def RERR : Int := -128
/-- Old implementation flukes. -/
def BAD_TDISCARDED : Int := -62
def BAD_RERR : Int := 127

end types

/-! ## `mod tags` -/

namespace tags

def MARKER_TAG : Nat := 0
/-- Reserved tag for the cached default ping message. -/
def PING_TAG : Nat := 1
def MAX_TAG : Nat := (1 <<< 23) - 1
def TAG_MSB : Nat := 1 <<< 23

/-- `!TAG_MSB` on `u32`, i.e. `0xFF7FFFFF`: all 32 bits set except bit 23. -/
def NOT_TAG_MSB : Nat := 0xFF7FFFFF

def is_fragment (tag : Nat) : Bool := (tag >>> 23) &&& 1 == 1

def set_msb (tag : Nat) : Nat := tag ||| TAG_MSB

end tags

/-! ## Data model (`lib.rs`).  `Dentry { prefix, dst }` is modelled as a pair
(`prefix` is a Lean keyword), and `Dtab` as the vector of entries it is used as
in `message.rs`. -/

abbrev Dentry := Str × Str
abbrev Path := Str
abbrev Dtab := List Dentry

/-- The `Message` enum of `message.rs`. -/
inductive Message where
  | Tinit (tag : Nat) (version : Nat) (headers : List (List Nat × List Nat))
  | Rinit (tag : Nat) (version : Nat) (headers : List (List Nat × List Nat))
  | Treq (tag : Nat) (req : List Nat)
  | RreqOk (tag : Nat) (reply : List Nat)
  | RreqError (tag : Nat) (error : Str)
  | RreqNack (tag : Nat)
  | Tdispatch (tag : Nat) (contexts : List (List Nat × List Nat)) (dst : Path)
      (dtab : Dtab) (req : List Nat)
  | RdispatchOk (tag : Nat) (contexts : List (List Nat × List Nat)) (reply : List Nat)
  | RdispatchError (tag : Nat) (contexts : List (List Nat × List Nat)) (error : Str)
  | RdispatchNack (tag : Nat) (contexts : List (List Nat × List Nat))
  | Fragment (typ : Int) (tag : Nat) (buf : List Nat)
  | Tdrain (tag : Nat)
  | Rdrain (tag : Nat)
  | Tping (tag : Nat)
  | PreEncodedTping
  | Rping (tag : Nat)
  | Rerr (tag : Nat) (error : Str)
  | Tdiscarded (which : Nat) (why : Str)
  | Rdiscarded (tag : Nat)
  | Tlease (unit : Nat) (how_long : Nat)
deriving DecidableEq

/-- `Message::typ`.  Note the legacy aliases: `Rerr` encodes as `BAD_RERR` and
`Tdiscarded` as `BAD_TDISCARDED` for backwards compatibility with old peers. -/
def Message.typ : Message → Int
  | .Tinit .. => types.TINIT
  | .Rinit .. => types.RINIT
  | .Treq .. => types.TREQ
  | .RreqOk .. | .RreqError .. | .RreqNack .. => types.RREQ
  | .Tdispatch .. => types.TDISPATCH
  | .RdispatchOk .. | .RdispatchError .. | .RdispatchNack .. => types.RDISPATCH
  | .Fragment typ .. => typ
  | .Tdrain .. => types.TDRAIN
  | .Rdrain .. => types.RDRAIN
  | .Tping .. => types.TPING
  | .Rping .. => types.RPING
  | .Rerr .. => types.BAD_RERR
  | .Tdiscarded .. => types.BAD_TDISCARDED
  | .Rdiscarded .. => types.RDISCARDED
  | .Tlease .. => types.TLEASE
  | .PreEncodedTping => 0

/-- `Message::tag`.  `Tdiscarded`/`Tlease` (and `PreEncodedTping`) are forced
to the marker tag `0`. -/
def Message.tag : Message → Nat
  | .Tinit tag .. | .Rinit tag .. | .Treq tag .. | .RreqOk tag .. | .RreqError tag ..
  | .RreqNack tag | .Tdispatch tag .. | .RdispatchOk tag .. | .RdispatchError tag ..
  | .RdispatchNack tag .. | .Fragment _ tag .. | .Tdrain tag | .Rdrain tag
  | .Tping tag | .Rping tag | .Rerr tag .. | .Rdiscarded tag => tag
  | .Tdiscarded .. | .Tlease .. => 0
  | .PreEncodedTping => 0

/-! ## `mod init`: Tinit/Rinit body codec. -/

namespace init

/-- The per-pair loop body of `init::encode`: `u32` key length + key bytes +
`u32` value length + value bytes, repeated. -/
def encodePairs : List (List Nat × List Nat) → List Nat
  | [] => []
  | (k, v) :: rest => u32be k.length ++ k ++ u32be v.length ++ v ++ encodePairs rest

/-- `init::encode`: `u16` version, then the header pairs. -/
def encode (version : Nat) (headers : List (List Nat × List Nat)) : List Nat :=
  u16be version ++ encodePairs headers

/-- The `while rdr.position() < len` loop of `init::decode`, reading
(key-length, key, value-length, value) records until the buffer is exhausted.
The `fuel` argument bounds the number of iterations for structural recursion;
every iteration consumes at least 8 bytes, so `fuel = buf.length` (as passed by
`init.decode`) can never run out and the fuel-exhausted branch is unreachable. -/
def decodePairs : Nat → List Nat → Except MuxError (List (List Nat × List Nat))
  | _, [] => .ok []
  | 0, _ :: _ => .error (.panic eofMsg)
  | fuel + 1, buf => do
    let (kl, r1) ← readU32 buf
    let (k, r2) ← readExact kl r1
    let (vl, r3) ← readU32 r2
    let (v, r4) ← readExact vl r3
    let rest ← decodePairs fuel r4
    pure ((k, v) :: rest)

/-- `init::decode`: `u16` version, then header pairs until exhaustion. -/
def decode (buf : List Nat) : Except MuxError (Nat × List (List Nat × List Nat)) := do
  let (version, r) ← readU16 buf
  let headers ← decodePairs r.length r
  pure (version, headers)

end init

/-! ## Message bodies (`Message::buf`). -/

/-- The per-pair context encoding used by `Tdispatch`/`Rdispatch*`: `u16` key
length + key + `u16` value length + value. -/
def encodeCtxPairs : List (List Nat × List Nat) → List Nat
  | [] => []
  | (k, v) :: rest => u16be k.length ++ k ++ u16be v.length ++ v ++ encodeCtxPairs rest

/-- The per-dentry encoding of the delegation table in `Tdispatch`: `u16`
prefix length + prefix bytes + `u16` destination length + destination bytes. -/
def encodeDtabPairs : Dtab → List Nat
  | [] => []
  | (src, dst) :: rest =>
    u16be src.val.length ++ src.val ++ u16be dst.val.length ++ dst.val ++ encodeDtabPairs rest

/-- Frame header: type code byte (`typ as u8`, two's complement). -/
def i8ToByte (t : Int) : Nat := (t % 256).toNat

/-- The 4-byte frame header `[typ as u8, tag>>16 & 0xff, tag>>8 & 0xff, tag & 0xff]`. -/
def encodeHeader (typ : Int) (tag : Nat) : List Nat :=
  [i8ToByte typ, tag >>> 16 &&& 0xff, tag >>> 8 &&& 0xff, tag &&& 0xff]

/-- The bytes produced by `encode(Message::Tping { tag: tags::PING_TAG })`,
which is what the source's `Message::buf` computes (by a recursive call to
`encode`) for `PreEncodedTping`; the tag check passes since `PING_TAG = 1`,
and a `Tping` body is empty.  See `encode_tping_ping_eq` below for the
consistency of this staging with `encode` itself. -/
def preEncodedTpingBytes : List Nat := encodeHeader types.TPING tags.PING_TAG ++ []

/-- `Message::buf`: the variant-specific body bytes. -/
def Message.buf : Message → List Nat
  | .Tinit _ version headers => init.encode version headers
  | .Rinit _ version headers => init.encode version headers
  | .Treq _ req => 0 :: req
  | .RreqOk _ reply => 0 :: reply
  | .RreqError _ error => 1 :: error.val
  | .RreqNack _ => [2]
  | .Tdispatch _ contexts dst dtab req =>
    u16be contexts.length ++ encodeCtxPairs contexts ++
    u16be dst.val.length ++ dst.val ++
    u16be dtab.length ++ encodeDtabPairs dtab ++ req
  | .RdispatchOk _ contexts reply =>
    0 :: (u16be contexts.length ++ encodeCtxPairs contexts ++ reply)
  | .RdispatchError _ contexts error =>
    1 :: (u16be contexts.length ++ encodeCtxPairs contexts ++ error.val)
  | .RdispatchNack _ contexts =>
    2 :: (u16be contexts.length ++ encodeCtxPairs contexts)
  | .Fragment _ _ buf => buf
  | .Tdrain _ | .Rdrain _ | .Tping _ | .Rping _ | .Rdiscarded _ => []
  | .Rerr _ error => error.val
  | .Tdiscarded which why =>
    (which >>> 16 &&& 0xff) :: (which >>> 8 &&& 0xff) :: (which &&& 0xff) :: why.val
  | .Tlease unit how_long => unit :: u64be how_long
  | .PreEncodedTping => preEncodedTpingBytes

/-- `encode`: `PreEncodedTping` short-circuits to its cached bytes; every other
message has its tag validated (`panic!("invalid tag number …")` when the tag
with the fragment bit ignored exceeds `MAX_TAG`) and is framed as the 4-byte
header followed by the body. -/
def encode (m : Message) : Except MuxError (List Nat) :=
  match m with
  | .PreEncodedTping => .ok (Message.buf .PreEncodedTping)
  | m =>
    let tag := m.tag
    let typ := m.typ
    if tag < tags.MARKER_TAG ∨ tag &&& tags.NOT_TAG_MSB > tags.MAX_TAG then
      .error (.panic "invalid tag number")
    else
      .ok (encodeHeader typ tag ++ m.buf)

/-! ## Per-variant decoders (`decode_*` in `message.rs`). -/

/-- `decode_treq`: 1 key-count byte which must be `0` (nonzero is the
unsupported legacy multi-key form), then the request payload. -/
def decode_treq (tag : Nat) : List Nat → Except MuxError Message
  | [] => .error (.panic "short Treq")
  | nkeys :: req =>
    if nkeys ≠ 0 then .error (.panic "Treq: too many keys")
    else .ok (.Treq tag req)

/-- The `while n > 0` pair-reading loop of `decode_contexts`. -/
def decodeCtxLoop : Nat → List Nat → Except MuxError (List (List Nat × List Nat) × List Nat)
  | 0, rest => .ok ([], rest)
  | n + 1, buf => do
    let (kl, r1) ← readU16 buf
    let (k, r2) ← readExact kl r1
    let (vl, r3) ← readU16 r2
    let (v, r4) ← readExact vl r3
    let (ctxs, rest) ← decodeCtxLoop n r4
    pure ((k, v) :: ctxs, rest)

/-- `decode_contexts`: `u16` count, then that many (key, value) pairs. -/
def decode_contexts (buf : List Nat) :
    Except MuxError (List (List Nat × List Nat) × List Nat) := do
  let (n, r) ← readU16 buf
  decodeCtxLoop n r

/-- The `while nd > 0` dentry-reading loop of `decode_tdispatch`. -/
def decodeDtabLoop : Nat → List Nat → Except MuxError (Dtab × List Nat)
  | 0, rest => .ok ([], rest)
  | n + 1, buf => do
    let (sl, r1) ← readU16 buf
    let (s, r2) ← readExact sl r1
    let src ← from_utf8 s
    let (dl, r3) ← readU16 r2
    let (d, r4) ← readExact dl r3
    let dst ← from_utf8 d
    let (dtab, rest) ← decodeDtabLoop n r4
    pure ((src, dst) :: dtab, rest)

/-- `decode_tdispatch`: contexts, `u16` destination length + UTF-8 destination
(empty string when the length is `0`), `u16` dentry count + dentries, then the
rest of the buffer as the request payload. -/
def decode_tdispatch (tag : Nat) (buf : List Nat) : Except MuxError Message := do
  let (contexts, r1) ← decode_contexts buf
  let (ndst, r2) ← readU16 r1
  let (dst, r3) ←
    if ndst > 0 then do
      let (s, r3) ← readExact ndst r2
      let dst ← from_utf8 s
      pure (dst, r3)
    else
      pure (Str.empty, r2)
  let (nd, r4) ← readU16 r3
  let (dtab, r5) ← decodeDtabLoop nd r4
  pure (.Tdispatch tag contexts dst dtab r5)

/-- `decode_rdispatch`: 1 status byte, contexts, then the rest of the buffer;
status `0` is Ok (payload), `1` is Error (UTF-8 string), `2` is Nack, anything
else panics with "invalid Rdispatch status". -/
def decode_rdispatch (tag : Nat) (buf : List Nat) : Except MuxError Message := do
  let (status, r1) ← readByte buf
  let (contexts, rest) ← decode_contexts r1
  match status with
  | 0 => pure (.RdispatchOk tag contexts rest)
  | 1 => do
    let error ← from_utf8 rest
    pure (.RdispatchError tag contexts error)
  | 2 => pure (.RdispatchNack tag contexts)
  | _ => .error (.panic "invalid Rdispatch status")

/-- `decode_rreq`: a `< 1`-byte body is "short Rreq"; status `0` is Ok
(payload), `1` is Error (UTF-8 string), `2` is Nack, anything else panics with
"invalid Rreq status". -/
def decode_rreq (tag : Nat) : List Nat → Except MuxError Message
  | [] => .error (.panic "short Rreq")
  | status :: rest =>
    match status with
    | 0 => .ok (.RreqOk tag rest)
    | 1 => do
      let error ← from_utf8 rest
      pure (.RreqError tag error)
    | 2 => .ok (.RreqNack tag)
    | _ => .error (.panic "invalid Rreq status")

/-- `decode_tdiscarded`: a `< 3`-byte body is "short Tdiscarded message";
otherwise `which` is rebuilt from 3 big-endian bytes and the rest is the UTF-8
`why` string. -/
def decode_tdiscarded : List Nat → Except MuxError Message
  | b0 :: b1 :: b2 :: rest => do
    let which := ((b0 &&& 0xff) <<< 16) ||| ((b1 &&& 0xff) <<< 8) ||| (b2 &&& 0xff)
    let why ← from_utf8 rest
    pure (.Tdiscarded which why)
  | _ => .error (.panic "short Tdiscarded message")

/-- `decode_tlease`: a `< 9`-byte body is "short Tlease message"; otherwise 1
unit byte + 8-byte big-endian duration. -/
def decode_tlease (buf : List Nat) : Except MuxError Message :=
  if buf.length < 9 then .error (.panic "short Tlease message")
  else do
    let (unit, r1) ← readByte buf
    let (how_much, _) ← readU64 r1
    pure (.Tlease unit how_much)

/-! ## The decode dispatcher.

The repository contains the per-variant parsers above but no top-level decode
entry point (nothing in `src/` dispatches on a received type code); the
dispatcher is therefore modelled from the spec. -/

/-- Reinterpret a wire byte as a signed 8-bit type code (`byte as i8`). -/
def toI8 (b : Nat) : Int := if b < 128 then (b : Int) else (b : Int) - 256

/-- Modelled from the spec: `decode(typeCode, tag, body)` "dispatches purely on
type code to the matching per-variant parser" (§4.1); messages with empty
bodies decode from the header alone; `Rerr`'s body is the whole-body UTF-8
error text; and decoding "must accept either code" for the two variants with a
legacy alias (`Rerr`: `-128`/`127`; `Tdiscarded`: `66`/`-62`).  The per-variant
parsers themselves are the source's `decode_*` functions. -/
def decodeDispatch (typ : Int) (tag : Nat) (body : List Nat) : Except MuxError Message :=
  if typ = types.TREQ then decode_treq tag body
  else if typ = types.RREQ then decode_rreq tag body
  else if typ = types.TDISPATCH then decode_tdispatch tag body
  else if typ = types.RDISPATCH then decode_rdispatch tag body
  else if typ = types.TDRAIN then .ok (.Tdrain tag)
  else if typ = types.RDRAIN then .ok (.Rdrain tag)
  else if typ = types.TPING then .ok (.Tping tag)
  else if typ = types.RPING then .ok (.Rping tag)
  else if typ = types.TDISCARDED ∨ typ = types.BAD_TDISCARDED then decode_tdiscarded body
  else if typ = types.RDISCARDED then .ok (.Rdiscarded tag)
  else if typ = types.TLEASE then decode_tlease body
  else if typ = types.TINIT then do
    let (version, headers) ← init.decode body
    pure (.Tinit tag version headers)
  else if typ = types.RINIT then do
    let (version, headers) ← init.decode body
    pure (.Rinit tag version headers)
  else if typ = types.RERR ∨ typ = types.BAD_RERR then do
    let error ← from_utf8 body
    pure (.Rerr tag error)
  else .error (.panic "unknown message type")

/-- Modelled from the spec: the universal frame envelope (§6) — byte 0 is the
signed type code, bytes 1–3 the big-endian 24-bit tag, the rest the body. -/
def decodeFrame : List Nat → Except MuxError Message
  | t :: a :: b :: c :: body => decodeDispatch (toI8 t) (a * 65536 + b * 256 + c) body
  | _ => .error (.panic "short frame")

/-! ## Fragmentation (§4.2 of the spec).

`mux_framer.rs`'s `write`/`read` are a placeholder line-delimited byte framer
(the file's own header comment describes tag fragmentation, but the code splits
on a newline byte and never touches tags); the fragmentation algorithm is
therefore modelled from the spec. -/

/-- A wire frame: type code, 24-bit tag, body chunk. -/
structure MuxFrame where
  typ : Int
  tag : Nat
  body : List Nat
deriving DecidableEq

/-- Chunk-splitting loop: peel `size`-byte chunks off the front until the
remainder fits.  `fuel` bounds the recursion (one chunk of at least one byte is
peeled per step whenever `size ≥ 1`, so `fuel = l.length` never runs out). -/
def chunksGo (size : Nat) : Nat → List Nat → List (List Nat)
  | _, [] => []
  | 0, l => [l]
  | fuel + 1, l => l.take size :: chunksGo size fuel (l.drop size)

/-- Modelled from the spec: "Given an encoded message body longer than
`frame_size`, split it into chunks of at most `frame_size` bytes" (§4.2). -/
def chunksOf (size : Nat) (l : List Nat) : List (List Nat) := chunksGo size l.length l

/-- Modelled from the spec: "Every chunk but the last is wrapped as a Fragment
carrying the original tag with bit 23 set; the last chunk is wrapped with bit
23 clear, signaling completion" (§4.2). -/
def wrapFragments (typ : Int) (tag : Nat) : List (List Nat) → List MuxFrame
  | [] => []
  | [c] => [⟨typ, tag, c⟩]
  | c :: c' :: rest => ⟨typ, tags.set_msb tag, c⟩ :: wrapFragments typ tag (c' :: rest)

/-- Modelled from the spec: the single-tag, in-order inbound path (§4.2) — a
frame whose tag has bit 23 set is appended to the reassembly buffer; a frame
with bit 23 clear completes the message, and the concatenated bytes are handed
to the decode step with the terminal frame's type code and tag. -/
def reassembleGo (buffer : List Nat) : List MuxFrame → Except MuxError Message
  | [] => .error (.panic "incomplete fragment stream")
  | f :: rest =>
    if tags.is_fragment f.tag then reassembleGo (buffer ++ f.body) rest
    else decodeDispatch f.typ f.tag (buffer ++ f.body)

/-- Modelled from the spec: reassemble an in-order fragment stream and decode. -/
def reassemble (frames : List MuxFrame) : Except MuxError Message :=
  reassembleGo [] frames

/-! ## `mux_framer.rs`: the low-level transport.

`LowLevelTransport` wraps an inner non-blocking byte channel; the inner
channel's successive `write` results are modelled as a finite script of
`Except IoError Nat` values consumed one per call (a `.ok n` means `n` bytes
were accepted). -/

namespace mux_framer

inductive ErrorKind where
  | wouldBlock
  | other
deriving DecidableEq

/-- An `io::Error`: its kind and message. -/
structure IoError where
  kind : ErrorKind
  msg : String
deriving DecidableEq

/-- `pipeline::Frame<String, io::Error>` as used by `write` — the `Message`
case carries the string payload; every other case hits `unimplemented!()`. -/
inductive PFrame where
  | message (req : Str)
  | done
deriving DecidableEq

structure LowLevelTransport where
  read_buffer : List Nat
  /-- The bytes of the `io::Cursor<Vec<u8>>` write buffer. -/
  write_buffer_data : List Nat
  /-- The cursor position within the write buffer. -/
  write_buffer_pos : Nat
deriving DecidableEq

abbrev InnerScript := List (Except IoError Nat)

/-- `flush`: repeatedly hand the unflushed tail of the write buffer to the
inner channel; `Ok(n)` advances the cursor, `WouldBlock` yields `Ok(None)`,
any other error propagates, and an empty remainder yields `Ok(Some(()))`.
An exhausted script (a model artifact — the trace of inner results ran out)
surfaces as an error. -/
def flush : InnerScript → LowLevelTransport → LowLevelTransport × Except IoError (Option Unit)
  | script, t =>
    if t.write_buffer_data.length ≤ t.write_buffer_pos then (t, .ok (some ()))
    else
      match script with
      | [] => (t, .error ⟨.other, "inner write-result script exhausted"⟩)
      | r :: rs =>
        match r with
        | .ok n => flush rs { t with write_buffer_pos := t.write_buffer_pos + n }
        | .error e =>
          if e.kind = .wouldBlock then (t, .ok none) else (t, .error e)

/-- `write`: a `Message` frame is refused with the resource-usage error
"transport has pending writes" while the previous write's buffer is not fully
drained; otherwise the payload plus a newline becomes the new write buffer and
is flushed immediately.  Non-`Message` frames hit `unimplemented!()`. -/
def write (script : InnerScript) (t : LowLevelTransport) (req : PFrame) :
    LowLevelTransport × Except IoError (Option Unit) :=
  match req with
  | .message req =>
    if t.write_buffer_pos < t.write_buffer_data.length then
      (t, .error ⟨.other, "transport has pending writes"⟩)
    else
      flush script { t with write_buffer_data := req.val ++ [10], write_buffer_pos := 0 }
  | .done => (t, .error ⟨.other, "not implemented"⟩)

end mux_framer

/-! ## Well-formedness predicates (Rust-representability and wire-size bounds). -/

/-- Bytes of a `Vec<u8>`: each element fits in a byte. -/
def bytesOk (l : List Nat) : Bool := l.all fun b => decide (b < 256)

/-- Each pair of byte strings in `l` is below the given length bound, with all
elements byte-valued. -/
def pairSizes (bound : Nat) (l : List (List Nat × List Nat)) : Bool :=
  l.all fun p => decide (p.1.length < bound) && decide (p.2.length < bound) &&
    bytesOk p.1 && bytesOk p.2

/-- Rust representability of the fields: tags are `u32`, the version is `u16`,
the lease unit is `u8` and its duration `u64`, `which` is `u32`, a fragment's
type code is `i8`, and payload bytes are `u8`. -/
def Message.wellFormed : Message → Bool
  | .Tinit tag version _ | .Rinit tag version _ =>
    decide (tag < 4294967296) && decide (version < 65536)
  | .Treq tag req | .RreqOk tag req => decide (tag < 4294967296) && bytesOk req
  | .RreqError tag _ | .RreqNack tag | .Rerr tag _ | .Tdrain tag | .Rdrain tag
  | .Tping tag | .Rping tag | .Rdiscarded tag => decide (tag < 4294967296)
  | .Tdispatch tag _ _ _ req => decide (tag < 4294967296) && bytesOk req
  | .RdispatchOk tag _ reply => decide (tag < 4294967296) && bytesOk reply
  | .RdispatchError tag _ _ | .RdispatchNack tag _ => decide (tag < 4294967296)
  | .Fragment typ tag buf =>
    decide (-128 ≤ typ) && decide (typ ≤ 127) && decide (tag < 4294967296) && bytesOk buf
  | .Tdiscarded which _ => decide (which < 4294967296)
  | .Tlease unit how_long => decide (unit < 256) && decide (how_long < 18446744073709551616)
  | .PreEncodedTping => true

/-- The wire length fields accommodate the message's lists and strings:
`u16` count/length fields for dispatch contexts, destination and delegation
entries, and `u32` length fields for init header keys and values. -/
def Message.sizesOk : Message → Bool
  | .Tinit _ _ headers | .Rinit _ _ headers => pairSizes 4294967296 headers
  | .Tdispatch _ contexts dst dtab _ =>
    decide (contexts.length < 65536) && pairSizes 65536 contexts &&
    decide (dst.val.length < 65536) && decide (dtab.length < 65536) &&
    dtab.all fun e => decide (e.1.val.length < 65536) && decide (e.2.val.length < 65536)
  | .RdispatchOk _ contexts _ | .RdispatchError _ contexts _ | .RdispatchNack _ contexts =>
    decide (contexts.length < 65536) && pairSizes 65536 contexts
  | _ => true

/-- The variants/values on which the encode/decode composition cannot be the
identity: `PreEncodedTping` (decodes as the equivalent `Tping{tag=1}`),
`Fragment` (the decode step dispatches on the inner type code, never producing
a `Fragment`), and `Tdiscarded` with `which ≥ 2^24` (only the low 24 bits are
encoded). -/
def Message.roundtrippable : Message → Bool
  | .PreEncodedTping => false
  | .Fragment _ _ _ => false
  | .Tdiscarded which _ => decide (which < 16777216)
  | _ => true

/-! # Lemmas -/

/-! ## Except monad reduction -/

@[simp] theorem pure_eq_ok {ε α} (a : α) : (pure a : Except ε α) = .ok a := rfl

@[simp] theorem ok_bind {ε α β} (a : α) (f : α → Except ε β) :
    ((Except.ok a : Except ε α) >>= f) = f a := rfl

@[simp] theorem error_bind {ε α β} (e : ε) (f : α → Except ε β) :
    ((Except.error e : Except ε α) >>= f) = .error e := rfl

@[simp] theorem isOk_ok {ε α} (a : α) : (Except.ok a : Except ε α).isOk = true := rfl

@[simp] theorem isOk_error {ε α} (e : ε) : (Except.error e : Except ε α).isOk = false := rfl

/-! ## Bit arithmetic -/

theorem and_split (i p a b c d : Nat) (hp : p = 2 ^ i) (hb : b < p) (hd : d < p) :
    (p * a + b) &&& (p * c + d) = p * (a &&& c) + (b &&& d) := by
  subst hp
  have hbd : b &&& d < 2 ^ i := lt_of_le_of_lt Nat.and_le_left hb
  apply Nat.eq_of_testBit_eq
  intro j
  rw [Nat.testBit_and, Nat.testBit_mul_pow_two_add _ hb, Nat.testBit_mul_pow_two_add _ hd,
    Nat.testBit_mul_pow_two_add _ hbd]
  by_cases hj : j < i
  · simp [hj, Nat.testBit_and]
  · simp [hj, Nat.testBit_and]

theorem and_255 (x : Nat) : x &&& 255 = x % 256 := by
  have h : (255 : Nat) = 2 ^ 8 - 1 := by norm_num
  rw [h, Nat.and_pow_two_sub_one_eq_mod]

/-- Clearing bit 23 of a `u32`, arithmetically: `t &&& 0xFF7FFFFF` keeps the
top byte and the low 23 bits. -/
theorem tag_mask_eq (t : Nat) (ht : t < 4294967296) :
    t &&& tags.NOT_TAG_MSB = 16777216 * (t / 16777216) + t % 8388608 := by
  have hM : tags.NOT_TAG_MSB = 16777216 * 255 + 8388607 := by decide
  have hdec : t = 16777216 * (t / 16777216) + t % 16777216 :=
    (Nat.div_add_mod t 16777216).symm
  rw [hM]
  conv_lhs => rw [hdec]
  rw [and_split 24 16777216 _ _ _ _ (by norm_num) (Nat.mod_lt _ (by norm_num)) (by norm_num)]
  have h1 : t / 16777216 &&& 255 = t / 16777216 := by
    rw [and_255, Nat.mod_eq_of_lt (by omega)]
  have h2 : t % 16777216 &&& 8388607 = t % 8388608 := by
    have h : (8388607 : Nat) = 2 ^ 23 - 1 := by norm_num
    rw [h, Nat.and_pow_two_sub_one_eq_mod]
    norm_num
  rw [h1, h2]

theorem MAX_TAG_eq : tags.MAX_TAG = 8388607 := by decide

/-- A legal (encode-accepted) `u32` tag fits in the 24-bit wire field. -/
theorem legal_lt_u24 (t : Nat) (ht : t < 4294967296)
    (h : t &&& tags.NOT_TAG_MSB ≤ tags.MAX_TAG) : t < 16777216 := by
  rw [tag_mask_eq t ht, MAX_TAG_eq] at h
  omega

theorem set_msb_eq (t : Nat) (ht : t < 8388608) : tags.set_msb t = 8388608 + t := by
  have h23 : tags.TAG_MSB = 2 ^ 23 := by decide
  unfold tags.set_msb
  rw [h23, Nat.lor_comm]
  calc (2:Nat) ^ 23 ||| t = 2 ^ 23 * 1 ||| t := by norm_num
    _ = 2 ^ 23 * 1 + t := (Nat.mul_add_lt_is_or (by norm_num; omega) 1).symm
    _ = 8388608 + t := by norm_num

theorem is_fragment_of_lt (t : Nat) (ht : t < 8388608) : tags.is_fragment t = false := by
  unfold tags.is_fragment
  rw [Nat.shiftRight_eq_div_pow]
  have h : t / 2 ^ 23 = 0 := Nat.div_eq_of_lt (by norm_num; omega)
  rw [h]
  decide

theorem is_fragment_set_msb (t : Nat) (ht : t < 8388608) :
    tags.is_fragment (tags.set_msb t) = true := by
  rw [set_msb_eq t ht]
  unfold tags.is_fragment
  rw [Nat.shiftRight_eq_div_pow]
  have h : (8388608 + t) / 2 ^ 23 = 1 := by
    have h23 : (2:Nat) ^ 23 = 8388608 := by norm_num
    rw [h23]
    omega
  rw [h]
  decide

/-- Disjoint-bit or is addition (shifted high part, small low part). -/
theorem lor_shift_add (x y i : Nat) (hy : y < 2 ^ i) : (x <<< i) ||| y = x * 2 ^ i + y := by
  rw [Nat.shiftLeft_eq, Nat.mul_comm x (2 ^ i), ← Nat.mul_add_lt_is_or hy x]

/-! ## Reader lemmas -/

@[simp] theorem readExact_append (k r : List Nat) : readExact k.length (k ++ r) = .ok (k, r) := by
  simp [readExact, List.take_left, List.drop_left]

theorem readU16_u16be (n : Nat) (hn : n < 65536) (r : List Nat) :
    readU16 (u16be n ++ r) = .ok (n, r) := by
  simp only [u16be, List.cons_append, List.nil_append, readU16]
  congr 1
  rw [Prod.mk.injEq]
  exact ⟨by omega, rfl⟩

theorem readU32_u32be (n : Nat) (hn : n < 4294967296) (r : List Nat) :
    readU32 (u32be n ++ r) = .ok (n, r) := by
  simp only [u32be, List.cons_append, List.nil_append, readU32]
  congr 1
  rw [Prod.mk.injEq]
  exact ⟨by omega, rfl⟩

theorem readU64_u64be (n : Nat) (hn : n < 18446744073709551616) (r : List Nat) :
    readU64 (u64be n ++ r) = .ok (n, r) := by
  simp only [u64be, List.cons_append, List.nil_append, readU64]
  congr 1
  rw [Prod.mk.injEq]
  exact ⟨by omega, rfl⟩

@[simp] theorem from_utf8_val (s : Str) : from_utf8 s.val = .ok s := by
  cases s with
  | mk l hl => simp [from_utf8, hl]

/-! ## Loop round-trips -/

theorem decodeCtxLoop_round (ctxs : List (List Nat × List Nat)) (r : List Nat)
    (h : pairSizes 65536 ctxs = true) :
    decodeCtxLoop ctxs.length (encodeCtxPairs ctxs ++ r) = .ok (ctxs, r) := by
  induction ctxs generalizing r with
  | nil => simp [encodeCtxPairs, decodeCtxLoop]
  | cons p t ih =>
    obtain ⟨k, v⟩ := p
    simp only [pairSizes, List.all_cons, Bool.and_eq_true, decide_eq_true_eq] at h
    obtain ⟨⟨⟨⟨hk, hv⟩, _⟩, _⟩, ht⟩ := h
    simp only [encodeCtxPairs, List.length_cons, decodeCtxLoop, List.append_assoc]
    rw [readU16_u16be _ hk, ok_bind, readExact_append, ok_bind,
      readU16_u16be _ hv, ok_bind, readExact_append, ok_bind, ih r ht, ok_bind]
    rfl

theorem decode_contexts_round (ctxs : List (List Nat × List Nat)) (r : List Nat)
    (hlen : ctxs.length < 65536) (h : pairSizes 65536 ctxs = true) :
    decode_contexts (u16be ctxs.length ++ (encodeCtxPairs ctxs ++ r)) = .ok (ctxs, r) := by
  unfold decode_contexts
  rw [readU16_u16be _ hlen, ok_bind]
  exact decodeCtxLoop_round ctxs r h

theorem decodeDtabLoop_round (dtab : Dtab) (r : List Nat)
    (h : dtab.all (fun e => decide (e.1.val.length < 65536) &&
      decide (e.2.val.length < 65536)) = true) :
    decodeDtabLoop dtab.length (encodeDtabPairs dtab ++ r) = .ok (dtab, r) := by
  induction dtab generalizing r with
  | nil => simp [encodeDtabPairs, decodeDtabLoop]
  | cons p t ih =>
    obtain ⟨src, dst⟩ := p
    simp only [List.all_cons, Bool.and_eq_true, decide_eq_true_eq] at h
    obtain ⟨⟨hs, hd⟩, ht⟩ := h
    simp only [encodeDtabPairs, List.length_cons, decodeDtabLoop, List.append_assoc]
    rw [readU16_u16be _ hs, ok_bind, readExact_append, ok_bind, from_utf8_val, ok_bind,
      readU16_u16be _ hd, ok_bind, readExact_append, ok_bind, from_utf8_val, ok_bind,
      ih r ht, ok_bind]
    rfl

theorem decodePairs_nonempty (f : Nat) (buf : List Nat) (hb : buf ≠ []) :
    init.decodePairs (f + 1) buf = (do
      let (kl, r1) ← readU32 buf
      let (k, r2) ← readExact kl r1
      let (vl, r3) ← readU32 r2
      let (v, r4) ← readExact vl r3
      let rest ← init.decodePairs f r4
      pure ((k, v) :: rest)) := by
  cases buf with
  | nil => exact absurd rfl hb
  | cons x xs => rfl

theorem encodePairs_cons_ne_nil (k v : List Nat) (t : List (List Nat × List Nat)) :
    init.encodePairs ((k, v) :: t) ≠ [] := by
  simp [init.encodePairs, u32be]

theorem decodePairs_round (hs : List (List Nat × List Nat)) (fuel : Nat)
    (hsz : pairSizes 4294967296 hs = true)
    (hf : (init.encodePairs hs).length ≤ fuel) :
    init.decodePairs fuel (init.encodePairs hs) = .ok hs := by
  induction hs generalizing fuel with
  | nil =>
    cases fuel <;> simp [init.encodePairs, init.decodePairs]
  | cons p t ih =>
    obtain ⟨k, v⟩ := p
    simp only [pairSizes, List.all_cons, Bool.and_eq_true, decide_eq_true_eq] at hsz
    obtain ⟨⟨⟨⟨hk, hv⟩, _⟩, _⟩, ht⟩ := hsz
    have hlen : (init.encodePairs ((k, v) :: t)).length =
        8 + k.length + v.length + (init.encodePairs t).length := by
      simp [init.encodePairs, u32be]
      omega
    cases fuel with
    | zero => omega
    | succ f =>
      rw [decodePairs_nonempty f _ (encodePairs_cons_ne_nil k v t)]
      have hshape : init.encodePairs ((k, v) :: t) =
          u32be k.length ++ (k ++ (u32be v.length ++ (v ++ init.encodePairs t))) := by
        simp [init.encodePairs, List.append_assoc]
      rw [hshape]
      simp only [readU32_u32be _ hk, ok_bind, readExact_append,
        readU32_u32be _ hv, ih f ht (by omega), pure_eq_ok]

theorem init_decode_round (version : Nat) (hs : List (List Nat × List Nat))
    (hver : version < 65536) (hsz : pairSizes 4294967296 hs = true) :
    init.decode (init.encode version hs) = .ok (version, hs) := by
  unfold init.decode init.encode
  rw [readU16_u16be _ hver, ok_bind]
  simp only [decodePairs_round hs _ hsz le_rfl, ok_bind, pure_eq_ok]

/-! ## Frame header round-trip -/

theorem toI8_i8ToByte (t : Int) (h1 : -128 ≤ t) (h2 : t ≤ 127) : toI8 (i8ToByte t) = t := by
  unfold toI8 i8ToByte
  have hnn : 0 ≤ t % 256 := Int.emod_nonneg t (by norm_num)
  have htn : (((t % 256).toNat : Int)) = t % 256 := Int.toNat_of_nonneg hnn
  by_cases hc : (t % 256).toNat < 128 <;> simp only [hc, if_true, if_false] <;> omega

theorem u24_bytes_round (tag : Nat) (ht : tag < 16777216) :
    (tag >>> 16 &&& 255) * 65536 + (tag >>> 8 &&& 255) * 256 + (tag &&& 255) = tag := by
  rw [and_255, and_255, and_255, Nat.shiftRight_eq_div_pow, Nat.shiftRight_eq_div_pow]
  norm_num
  omega

theorem decodeFrame_header (typ : Int) (tag : Nat) (body : List Nat)
    (h1 : -128 ≤ typ) (h2 : typ ≤ 127) (ht : tag < 16777216) :
    decodeFrame (encodeHeader typ tag ++ body) = decodeDispatch typ tag body := by
  simp only [encodeHeader, List.cons_append, List.nil_append, decodeFrame]
  rw [toI8_i8ToByte typ h1 h2, u24_bytes_round tag ht]

/-! ## Dispatch-table reduction at each concrete type code -/

theorem dispatch_treq (tag : Nat) (body : List Nat) :
    decodeDispatch types.TREQ tag body = decode_treq tag body := rfl

theorem dispatch_rreq (tag : Nat) (body : List Nat) :
    decodeDispatch types.RREQ tag body = decode_rreq tag body := rfl

theorem dispatch_tdispatch (tag : Nat) (body : List Nat) :
    decodeDispatch types.TDISPATCH tag body = decode_tdispatch tag body := rfl

theorem dispatch_rdispatch (tag : Nat) (body : List Nat) :
    decodeDispatch types.RDISPATCH tag body = decode_rdispatch tag body := rfl

theorem dispatch_tdrain (tag : Nat) (body : List Nat) :
    decodeDispatch types.TDRAIN tag body = .ok (.Tdrain tag) := rfl

theorem dispatch_rdrain (tag : Nat) (body : List Nat) :
    decodeDispatch types.RDRAIN tag body = .ok (.Rdrain tag) := rfl

theorem dispatch_tping (tag : Nat) (body : List Nat) :
    decodeDispatch types.TPING tag body = .ok (.Tping tag) := rfl

theorem dispatch_rping (tag : Nat) (body : List Nat) :
    decodeDispatch types.RPING tag body = .ok (.Rping tag) := rfl

theorem dispatch_tdiscarded (tag : Nat) (body : List Nat) :
    decodeDispatch types.TDISCARDED tag body = decode_tdiscarded body := rfl

theorem dispatch_bad_tdiscarded (tag : Nat) (body : List Nat) :
    decodeDispatch types.BAD_TDISCARDED tag body = decode_tdiscarded body := rfl

theorem dispatch_rdiscarded (tag : Nat) (body : List Nat) :
    decodeDispatch types.RDISCARDED tag body = .ok (.Rdiscarded tag) := rfl

theorem dispatch_tlease (tag : Nat) (body : List Nat) :
    decodeDispatch types.TLEASE tag body = decode_tlease body := rfl

theorem dispatch_tinit (tag : Nat) (body : List Nat) :
    decodeDispatch types.TINIT tag body = (do
      let (version, headers) ← init.decode body
      pure (.Tinit tag version headers)) := rfl

theorem dispatch_rinit (tag : Nat) (body : List Nat) :
    decodeDispatch types.RINIT tag body = (do
      let (version, headers) ← init.decode body
      pure (.Rinit tag version headers)) := rfl

theorem dispatch_rerr (tag : Nat) (body : List Nat) :
    decodeDispatch types.RERR tag body = (do
      let error ← from_utf8 body
      pure (.Rerr tag error)) := rfl

theorem dispatch_bad_rerr (tag : Nat) (body : List Nat) :
    decodeDispatch types.BAD_RERR tag body = (do
      let error ← from_utf8 body
      pure (.Rerr tag error)) := rfl

/-! ## Encoding facts -/

/-- Consistency of the staged `preEncodedTpingBytes` with the source's
recursive `encode(Message::Tping { tag: tags::PING_TAG })` call. -/
theorem encode_tping_ping_eq :
    encode (.Tping tags.PING_TAG) = .ok preEncodedTpingBytes := rfl

/-- The reconstruction `(b0 & 0xff) << 16 | (b1 & 0xff) << 8 | (b2 & 0xff)`
performed by `decode_tdiscarded` on the three bytes `Message::buf` wrote for
`which` recovers exactly `which mod 2^24`. -/
theorem tdiscarded_which_round (w : Nat) :
    ((((w >>> 16 &&& 255) &&& 255) <<< 16) ||| (((w >>> 8 &&& 255) &&& 255) <<< 8) |||
      ((w &&& 255) &&& 255)) = w % 16777216 := by
  simp only [and_255, Nat.shiftRight_eq_div_pow]
  rw [Nat.lor_assoc, lor_shift_add _ _ 8 (by norm_num; omega),
    lor_shift_add _ _ 16 (by norm_num; omega)]
  norm_num
  omega

/-! # Claims -/

/-- C6: Encoding `Tping` with the reserved ping tag `1` produces exactly the
bytes `[65, 0, 0, 1]`, and encoding the pre-encoded cached ping value
(`PreEncodedTping`) produces bit-for-bit the same byte output. -/
theorem tping_encoding_bytes :
    encode (.Tping tags.PING_TAG) = .ok [65, 0, 0, 1] ∧
    encode .PreEncodedTping = .ok [65, 0, 0, 1] := by
  constructor <;> rfl

/-- C8: A `Treq` body whose first byte is nonzero fails to decode (the
unsupported legacy multi-key form panics with "Treq: too many keys"); a `Treq`
body whose first byte is zero decodes the remaining bytes as the request
payload. -/
theorem treq_multikey_rejection :
    (∀ (tag b : Nat) (req : List Nat), b ≠ 0 →
      decode_treq tag (b :: req) = .error (.panic "Treq: too many keys")) ∧
    (∀ (tag : Nat) (req : List Nat), decode_treq tag (0 :: req) = .ok (.Treq tag req)) := by
  constructor
  · intro tag b req hb
    simp [decode_treq, hb]
  · intro tag req
    simp [decode_treq]

/-- C8 witness. -/
theorem treq_multikey_rejection_witness :
    decode_treq 3 [1, 7] = .error (.panic "Treq: too many keys") ∧
    decode_treq 3 [0, 7] = .ok (.Treq 3 [7]) :=
  ⟨treq_multikey_rejection.1 3 1 [7] (by decide), treq_multikey_rejection.2 3 [7]⟩

/-- C7: An `Rreq`/`Rdispatch` body whose status byte is outside `{0,1,2}` fails
to decode (with the "invalid … status" failure); status `0` yields the Ok
variant carrying the remaining bytes, status `1` the Error variant carrying the
remaining bytes as a UTF-8 string, and status `2` the Nack variant. -/
theorem status_byte_validation :
    (∀ (tag s : Nat) (rest : List Nat), s ≠ 0 → s ≠ 1 → s ≠ 2 →
      decode_rreq tag (s :: rest) = .error (.panic "invalid Rreq status") ∧
      (decode_rdispatch tag (s :: rest)).isOk = false) ∧
    (∀ (tag : Nat) (rest : List Nat), decode_rreq tag (0 :: rest) = .ok (.RreqOk tag rest)) ∧
    (∀ (tag : Nat) (e : Str), decode_rreq tag (1 :: e.val) = .ok (.RreqError tag e)) ∧
    (∀ (tag : Nat) (rest : List Nat), decode_rreq tag (2 :: rest) = .ok (.RreqNack tag)) ∧
    (∀ (tag : Nat) (ctxs : List (List Nat × List Nat)) (payload : List Nat),
      ctxs.length < 65536 → pairSizes 65536 ctxs = true →
      decode_rdispatch tag (0 :: (u16be ctxs.length ++ (encodeCtxPairs ctxs ++ payload))) =
        .ok (.RdispatchOk tag ctxs payload) ∧
      decode_rdispatch tag (2 :: (u16be ctxs.length ++ (encodeCtxPairs ctxs ++ payload))) =
        .ok (.RdispatchNack tag ctxs)) ∧
    (∀ (tag : Nat) (ctxs : List (List Nat × List Nat)) (e : Str),
      ctxs.length < 65536 → pairSizes 65536 ctxs = true →
      decode_rdispatch tag (1 :: (u16be ctxs.length ++ (encodeCtxPairs ctxs ++ e.val))) =
        .ok (.RdispatchError tag ctxs e)) := by
  refine ⟨?_, ?_, ?_, ?_, ?_, ?_⟩
  · intro tag s rest h0 h1 h2
    obtain ⟨u, rfl⟩ : ∃ u, s = u + 3 := ⟨s - 3, by omega⟩
    constructor
    · simp [decode_rreq]
    · rw [decode_rdispatch]
      simp only [readByte, ok_bind]
      cases hdc : decode_contexts rest with
      | error e => simp
      | ok p =>
        obtain ⟨ctxs, r⟩ := p
        simp
  · intro tag rest
    simp [decode_rreq]
  · intro tag e
    simp [decode_rreq]
  · intro tag rest
    simp [decode_rreq]
  · intro tag ctxs payload hl hs
    constructor <;>
      (rw [decode_rdispatch]
       simp only [readByte, ok_bind]
       rw [decode_contexts_round ctxs payload hl hs]
       simp)
  · intro tag ctxs e hl hs
    rw [decode_rdispatch]
    simp only [readByte, ok_bind]
    rw [decode_contexts_round ctxs e.val hl hs]
    simp

/-- C7 witness. -/
theorem status_byte_validation_witness :
    (decode_rreq 1 [3, 8] = .error (.panic "invalid Rreq status") ∧
      (decode_rdispatch 1 [3, 8]).isOk = false) ∧
    decode_rreq 1 [0, 8] = .ok (.RreqOk 1 [8]) ∧
    decode_rreq 1 [1, 104] = .ok (.RreqError 1 ⟨[104], rfl⟩) ∧
    decode_rdispatch 1 [0, 0, 1, 0, 1, 4, 0, 1, 5, 9] =
      .ok (.RdispatchOk 1 [([4], [5])] [9]) := by
  refine ⟨status_byte_validation.1 1 3 [8] (by decide) (by decide) (by decide),
    status_byte_validation.2.1 1 [8],
    status_byte_validation.2.2.1 1 ⟨[104], rfl⟩, ?_⟩
  have h := (status_byte_validation.2.2.2.2.1 1 [([4], [5])] [9] (by decide) (by decide)).1
  exact (by decide : decode_rdispatch 1 [0, 0, 1, 0, 1, 4, 0, 1, 5, 9] =
    decode_rdispatch 1 (0 :: (u16be [([4], [5])].length ++
      (encodeCtxPairs [([4], [5])] ++ [9])))).trans h

/-- C2 counterexample: decoding a malformed (empty) `Tdispatch` body panics —
the source unwraps the failed `read_u16` — so "decoding never panics on
attacker-controlled input; shortfall surfaces as a typed `Malformed` error" is
false at this input: the failure is the panic `eofMsg`, and the code has no
typed `Malformed` error at all. -/
theorem decode_short_tdispatch_panics :
    decode_tdispatch 0 [] = .error (.panic eofMsg) := rfl

/-- C2 amended: decoding malformed input always aborts by panicking (modelled
as `MuxError.panic`, the codec's only failure mode) instead of returning a
message or reading out of bounds: a truncated body, a status byte outside
`{0,1,2}`, and invalid UTF-8 in a string field each panic; no typed `Malformed`
error exists in this implementation. -/
theorem decode_malformed_panics :
    (∀ tag : Nat, decode_tdispatch tag [] = .error (.panic eofMsg)) ∧
    (∀ (tag s : Nat) (rest : List Nat), s ≠ 0 → s ≠ 1 → s ≠ 2 →
      (decode_rdispatch tag (s :: rest)).isOk = false) ∧
    (∀ (tag : Nat) (rest : List Nat), utf8Valid rest = false →
      decode_rreq tag (1 :: rest) = .error (.panic "invalid utf-8 sequence")) ∧
    (∀ (tag : Nat) (buf : List Nat), buf.length < 1 → (decode_treq tag buf).isOk = false) ∧
    (∀ tag : Nat, decode_rreq tag [] = .error (.panic "short Rreq")) ∧
    (∀ buf : List Nat, buf.length < 3 → (decode_tdiscarded buf).isOk = false) ∧
    (∀ buf : List Nat, buf.length < 9 → (decode_tlease buf).isOk = false) := by
  refine ⟨fun tag => rfl, ?_, ?_, ?_, fun tag => rfl, ?_, ?_⟩
  · intro tag s rest h0 h1 h2
    obtain ⟨u, rfl⟩ : ∃ u, s = u + 3 := ⟨s - 3, by omega⟩
    rw [decode_rdispatch]
    simp only [readByte, ok_bind]
    cases hdc : decode_contexts rest with
    | error e => simp
    | ok p =>
      obtain ⟨ctxs, r⟩ := p
      simp
  · intro tag rest h
    simp [decode_rreq, from_utf8, h]
  · intro tag buf h
    cases buf with
    | nil => rfl
    | cons b t => simp at h
  · intro buf h
    match buf, h with
    | [], _ => rfl
    | [_], _ => rfl
    | [_, _], _ => rfl
  · intro buf h
    simp [decode_tlease, h]

/-- C2 amended witness. -/
theorem decode_malformed_panics_witness :
    (decode_rdispatch 2 [5]).isOk = false ∧
    decode_rreq 2 [1, 255] = .error (.panic "invalid utf-8 sequence") ∧
    (decode_treq 2 []).isOk = false ∧
    (decode_tdiscarded [0, 0]).isOk = false ∧
    (decode_tlease [1, 2]).isOk = false :=
  ⟨decode_malformed_panics.2.1 2 5 [] (by decide) (by decide) (by decide),
   decode_malformed_panics.2.2.1 2 [255] (by decide),
   decode_malformed_panics.2.2.2.1 2 [] (by decide),
   decode_malformed_panics.2.2.2.2.2.1 [0, 0] (by decide),
   decode_malformed_panics.2.2.2.2.2.2 [1, 2] (by decide)⟩

/-- C3: Encoding fails (with the source's "invalid tag number" panic — the
failure the spec names `InvalidTag`) exactly for messages whose tag with the
fragment bit ignored (`tag & !TAG_MSB`) exceeds `MAX_TAG = 2^23 - 1`, and
succeeds for every tag in `0..=2^23-1` with or without the fragment bit set. -/
theorem encode_tag_validation :
    (∀ m : Message, tags.MAX_TAG < Message.tag m &&& tags.NOT_TAG_MSB →
      encode m = .error (.panic "invalid tag number")) ∧
    (∀ m : Message, Message.tag m &&& tags.NOT_TAG_MSB ≤ tags.MAX_TAG →
      (encode m).isOk = true) ∧
    (∀ (m : Message) (t : Nat), t ≤ tags.MAX_TAG →
      (Message.tag m = t ∨ Message.tag m = tags.set_msb t) → (encode m).isOk = true) := by
  have hok : ∀ m : Message, Message.tag m &&& tags.NOT_TAG_MSB ≤ tags.MAX_TAG →
      (encode m).isOk = true := by
    intro m h
    cases m <;> simp only [Message.tag] at h <;> simp only [encode, Message.tag] <;>
      first
        | rfl
        | (rw [if_neg (by simp only [tags.MARKER_TAG]; omega)]; rfl)
  refine ⟨?_, hok, ?_⟩
  · intro m h
    cases m <;> simp only [Message.tag] at h <;> simp only [encode, Message.tag] <;>
      first
        | (exact absurd h (by decide))
        | (rw [if_pos (Or.inr h)])
  · intro m t ht hm
    have htlt : t < 8388608 := by
      rw [MAX_TAG_eq] at ht
      omega
    apply hok
    rcases hm with hm | hm <;> rw [hm]
    · have h24 : t < 16777216 := by omega
      rw [tag_mask_eq t (by omega), MAX_TAG_eq]
      have : t / 16777216 = 0 := Nat.div_eq_of_lt (by omega)
      rw [this]
      omega
    · rw [set_msb_eq t htlt, tag_mask_eq _ (by omega), MAX_TAG_eq]
      have : (8388608 + t) / 16777216 = 0 := Nat.div_eq_of_lt (by omega)
      rw [this]
      omega

/-- C3 witness. -/
theorem encode_tag_validation_witness :
    encode (.Tping 16777216) = .error (.panic "invalid tag number") ∧
    (encode (.Tping 8388607)).isOk = true ∧
    (encode (.Tping (tags.set_msb 5))).isOk = true :=
  ⟨encode_tag_validation.1 (.Tping 16777216) (by decide),
   encode_tag_validation.2.1 (.Tping 8388607) (by decide),
   encode_tag_validation.2.2 (.Tping (tags.set_msb 5)) 5 (by decide) (Or.inr rfl)⟩

/-- C9: While a previous outbound write's buffer is not fully drained, a new
`write` returns the `Other`-kind error "transport has pending writes" (not a
would-block); a write can only return `Ok` when the prior buffer was flushed to
completion. -/
theorem pending_write_error :
    (∀ (script : mux_framer.InnerScript) (t : mux_framer.LowLevelTransport) (req : Str),
      t.write_buffer_pos < t.write_buffer_data.length →
      mux_framer.write script t (.message req) =
        (t, .error ⟨.other, "transport has pending writes"⟩)) ∧
    (∀ (script : mux_framer.InnerScript) (t t' : mux_framer.LowLevelTransport) (req : Str)
      (r : Option Unit), mux_framer.write script t (.message req) = (t', .ok r) →
      t.write_buffer_data.length ≤ t.write_buffer_pos) ∧
    mux_framer.ErrorKind.other ≠ mux_framer.ErrorKind.wouldBlock := by
  refine ⟨?_, ?_, by decide⟩
  · intro script t req h
    simp [mux_framer.write, h]
  · intro script t t' req r h
    by_cases hc : t.write_buffer_pos < t.write_buffer_data.length
    · rw [mux_framer.write] at h
      simp only [if_pos hc, Prod.mk.injEq] at h
      exact absurd h.2 (by simp)
    · omega

/-- C9 witness. -/
theorem pending_write_error_witness :
    mux_framer.write [] ⟨[], [1, 2, 3], 1⟩ (.message ⟨[97], rfl⟩) =
      (⟨[], [1, 2, 3], 1⟩, .error ⟨.other, "transport has pending writes"⟩) :=
  pending_write_error.1 [] ⟨[], [1, 2, 3], 1⟩ ⟨[97], rfl⟩ (by decide)

/-- C10: Encoding `Tdiscarded` never validates or rejects `which`: for every
`u32` value the encode succeeds, the body carries only the low 24 bits of
`which` big-endian, and the encode/decode round-trip silently returns
`which mod 2^24`. -/
theorem tdiscarded_which_truncation :
    ∀ (which : Nat) (why : Str), which < 4294967296 →
      Message.buf (.Tdiscarded which why) =
        (which >>> 16 &&& 255) :: (which >>> 8 &&& 255) :: (which &&& 255) :: why.val ∧
      (encode (.Tdiscarded which why)).isOk = true ∧
      (encode (.Tdiscarded which why) >>= decodeFrame) =
        .ok (.Tdiscarded (which % 16777216) why) := by
  intro which why h
  have henc : encode (.Tdiscarded which why) =
      .ok (encodeHeader types.BAD_TDISCARDED 0 ++ Message.buf (.Tdiscarded which why)) := by
    simp only [encode, Message.tag, Message.typ]
    rw [if_neg (by decide)]
  refine ⟨rfl, by rw [henc]; rfl, ?_⟩
  rw [henc, ok_bind, decodeFrame_header _ _ _ (by decide) (by decide) (by decide),
    dispatch_bad_tdiscarded]
  show decode_tdiscarded ((which >>> 16 &&& 255) :: (which >>> 8 &&& 255) ::
    (which &&& 255) :: why.val) = _
  rw [decode_tdiscarded]
  simp only [from_utf8_val, ok_bind, pure_eq_ok, tdiscarded_which_round]

/-- C10 witness: at `which = 2^24` the round-trip silently returns `0`. -/
theorem tdiscarded_which_truncation_witness :
    (encode (.Tdiscarded 16777216 ⟨[99], rfl⟩)).isOk = true ∧
    (encode (.Tdiscarded 16777216 ⟨[99], rfl⟩) >>= decodeFrame) =
      .ok (.Tdiscarded 0 ⟨[99], rfl⟩) := by
  have h := tdiscarded_which_truncation 16777216 ⟨[99], rfl⟩ (by decide)
  exact ⟨h.2.1, h.2.2.trans (by decide)⟩

/-- C5: Encoding emits the legacy-alias type codes — `127` (not canonical
`-128`) for `Rerr`, and `-62` (wire byte `194`; not canonical `66`) for
`Tdiscarded` — while the decode dispatch accepts either code for each of the
two variants. -/
theorem legacy_alias_codes :
    (∀ (tag : Nat) (e : Str), Message.typ (.Rerr tag e) = 127) ∧
    (∀ (w : Nat) (y : Str), Message.typ (.Tdiscarded w y) = -62) ∧
    (∀ (tag : Nat) (e : Str), tag &&& tags.NOT_TAG_MSB ≤ tags.MAX_TAG →
      encode (.Rerr tag e) =
        .ok (127 :: (tag >>> 16 &&& 255) :: (tag >>> 8 &&& 255) :: (tag &&& 255) :: e.val)) ∧
    (∀ (w : Nat) (y : Str), encode (.Tdiscarded w y) =
      .ok (194 :: 0 :: 0 :: 0 :: Message.buf (.Tdiscarded w y))) ∧
    (∀ (tag : Nat) (body : List Nat),
      decodeDispatch types.RERR tag body = decodeDispatch types.BAD_RERR tag body ∧
      decodeDispatch types.TDISCARDED tag body = decodeDispatch types.BAD_TDISCARDED tag body) ∧
    (∀ (tag : Nat) (e : Str),
      decodeDispatch types.BAD_RERR tag e.val = .ok (.Rerr tag e) ∧
      decodeDispatch types.RERR tag e.val = .ok (.Rerr tag e)) := by
  refine ⟨fun tag e => rfl, fun w y => rfl, ?_, ?_, fun tag body => ⟨rfl, rfl⟩, ?_⟩
  · intro tag e h
    simp only [encode, Message.tag, Message.typ, Message.buf]
    rw [if_neg (by simp only [tags.MARKER_TAG]; omega)]
    rfl
  · intro w y
    simp only [encode, Message.tag, Message.typ]
    rw [if_neg (by decide)]
    rfl
  · intro tag e
    constructor
    · rw [dispatch_bad_rerr]
      simp only [from_utf8_val, ok_bind, pure_eq_ok]
    · rw [dispatch_rerr]
      simp only [from_utf8_val, ok_bind, pure_eq_ok]

/-- Every non-`PreEncodedTping` message with an encode-legal tag is framed as
header plus body. -/
theorem encode_nonpre (m : Message)
    (hm : Message.tag m &&& tags.NOT_TAG_MSB ≤ tags.MAX_TAG)
    (hpre : m ≠ .PreEncodedTping) :
    encode m = .ok (encodeHeader (Message.typ m) (Message.tag m) ++ Message.buf m) := by
  cases m <;> simp only [Message.tag] at hm <;>
    simp only [encode, Message.tag, Message.typ] <;>
    first
      | exact absurd rfl hpre
      | rw [if_neg (by simp only [tags.MARKER_TAG]; omega)]

theorem readU64_u64be_nil (n : Nat) (hn : n < 18446744073709551616) :
    readU64 (u64be n) = .ok (n, []) := by
  have h := readU64_u64be n hn []
  rwa [List.append_nil] at h

/-- C1 counterexample: `PreEncodedTping` is a constructible `Message` with a
legal tag (`0`), but `decode(encode(PreEncodedTping))` yields `Tping{tag=1}`
(the equivalent logical ping), not `PreEncodedTping` itself, so
`decode(encode(m)) == m` fails for this variant. -/
theorem roundtrip_preencoded_ping_breaks :
    (encode .PreEncodedTping >>= decodeFrame) = .ok (.Tping 1) ∧
    Message.Tping 1 ≠ .PreEncodedTping := by
  exact ⟨rfl, by decide⟩

/-- C1 amended: for every constructible message except `PreEncodedTping` and
`Fragment`, with an encode-legal tag, whose lists and strings fit their wire
length fields (`u16` bounds for dispatch contexts/destination/delegation
entries, `u32` bounds for init header keys and values) and whose `Tdiscarded`
`which` fits 24 bits, `decode(encode(m)) = m` — in particular context lists,
header lists and delegation tables round-trip with order, duplicate keys and
zero bytes preserved exactly. -/
theorem roundtrip_amended (m : Message)
    (hwf : Message.wellFormed m = true)
    (hsz : Message.sizesOk m = true)
    (hlegal : Message.tag m &&& tags.NOT_TAG_MSB ≤ tags.MAX_TAG)
    (hrt : Message.roundtrippable m = true) :
    (encode m >>= decodeFrame) = .ok m := by
  cases m with
  | PreEncodedTping => simp [Message.roundtrippable] at hrt
  | Fragment typ tag buf => simp [Message.roundtrippable] at hrt
  | Tinit tag version headers =>
    simp only [Message.wellFormed, Bool.and_eq_true, decide_eq_true_eq] at hwf
    obtain ⟨htag, hver⟩ := hwf
    simp only [Message.sizesOk] at hsz
    simp only [Message.tag] at hlegal
    have ht24 := legal_lt_u24 _ htag hlegal
    rw [encode_nonpre _ (by simpa [Message.tag]) (by simp), ok_bind]
    simp only [Message.typ, Message.tag, Message.buf]
    rw [decodeFrame_header _ _ _ (by decide) (by decide) ht24, dispatch_tinit,
      init_decode_round version headers hver hsz]
    rfl
  | Rinit tag version headers =>
    simp only [Message.wellFormed, Bool.and_eq_true, decide_eq_true_eq] at hwf
    obtain ⟨htag, hver⟩ := hwf
    simp only [Message.sizesOk] at hsz
    simp only [Message.tag] at hlegal
    have ht24 := legal_lt_u24 _ htag hlegal
    rw [encode_nonpre _ (by simpa [Message.tag]) (by simp), ok_bind]
    simp only [Message.typ, Message.tag, Message.buf]
    rw [decodeFrame_header _ _ _ (by decide) (by decide) ht24, dispatch_rinit,
      init_decode_round version headers hver hsz]
    rfl
  | Treq tag req =>
    simp only [Message.wellFormed, Bool.and_eq_true, decide_eq_true_eq] at hwf
    simp only [Message.tag] at hlegal
    have ht24 := legal_lt_u24 _ hwf.1 hlegal
    rw [encode_nonpre _ (by simpa [Message.tag]) (by simp), ok_bind]
    simp only [Message.typ, Message.tag, Message.buf]
    rw [decodeFrame_header _ _ _ (by decide) (by decide) ht24, dispatch_treq]
    simp [decode_treq]
  | RreqOk tag reply =>
    simp only [Message.wellFormed, Bool.and_eq_true, decide_eq_true_eq] at hwf
    simp only [Message.tag] at hlegal
    have ht24 := legal_lt_u24 _ hwf.1 hlegal
    rw [encode_nonpre _ (by simpa [Message.tag]) (by simp), ok_bind]
    simp only [Message.typ, Message.tag, Message.buf]
    rw [decodeFrame_header _ _ _ (by decide) (by decide) ht24, dispatch_rreq]
    simp [decode_rreq]
  | RreqError tag error =>
    simp only [Message.wellFormed, decide_eq_true_eq] at hwf
    simp only [Message.tag] at hlegal
    have ht24 := legal_lt_u24 _ hwf hlegal
    rw [encode_nonpre _ (by simpa [Message.tag]) (by simp), ok_bind]
    simp only [Message.typ, Message.tag, Message.buf]
    rw [decodeFrame_header _ _ _ (by decide) (by decide) ht24, dispatch_rreq]
    simp [decode_rreq]
  | RreqNack tag =>
    simp only [Message.wellFormed, decide_eq_true_eq] at hwf
    simp only [Message.tag] at hlegal
    have ht24 := legal_lt_u24 _ hwf hlegal
    rw [encode_nonpre _ (by simpa [Message.tag]) (by simp), ok_bind]
    simp only [Message.typ, Message.tag, Message.buf]
    rw [decodeFrame_header _ _ _ (by decide) (by decide) ht24, dispatch_rreq]
    simp [decode_rreq]
  | Tdispatch tag contexts dst dtab req =>
    simp only [Message.wellFormed, Bool.and_eq_true, decide_eq_true_eq] at hwf
    simp only [Message.sizesOk, Bool.and_eq_true, decide_eq_true_eq] at hsz
    obtain ⟨⟨⟨⟨hcl, hcs⟩, hdl⟩, htl⟩, hts⟩ := hsz
    simp only [Message.tag] at hlegal
    have ht24 := legal_lt_u24 _ hwf.1 hlegal
    rw [encode_nonpre _ (by simpa [Message.tag]) (by simp), ok_bind]
    simp only [Message.typ, Message.tag, Message.buf]
    rw [decodeFrame_header _ _ _ (by decide) (by decide) ht24, dispatch_tdispatch,
      decode_tdispatch]
    simp only [List.append_assoc]
    rw [decode_contexts_round contexts _ hcl hcs]
    simp only [ok_bind]
    rw [readU16_u16be _ hdl]
    simp only [ok_bind]
    obtain ⟨dval, hdp⟩ := dst
    cases dval with
    | nil =>
      simp only [List.length_nil, gt_iff_lt, Nat.lt_irrefl, if_false, List.nil_append,
        ok_bind, pure_eq_ok]
      rw [readU16_u16be _ htl]
      simp only [ok_bind]
      rw [decodeDtabLoop_round dtab req hts]
      simp only [ok_bind, pure_eq_ok]
      rfl
    | cons b bs =>
      rw [if_pos (by simp)]
      simp only [readExact_append, ok_bind, from_utf8_val, pure_eq_ok]
      rw [readU16_u16be _ htl]
      simp only [ok_bind]
      rw [decodeDtabLoop_round dtab req hts]
      simp only [ok_bind, pure_eq_ok]
      simp [from_utf8, hdp]
  | RdispatchOk tag contexts reply =>
    simp only [Message.wellFormed, Bool.and_eq_true, decide_eq_true_eq] at hwf
    simp only [Message.sizesOk, Bool.and_eq_true, decide_eq_true_eq] at hsz
    obtain ⟨hcl, hcs⟩ := hsz
    simp only [Message.tag] at hlegal
    have ht24 := legal_lt_u24 _ hwf.1 hlegal
    rw [encode_nonpre _ (by simpa [Message.tag]) (by simp), ok_bind]
    simp only [Message.typ, Message.tag, Message.buf]
    rw [decodeFrame_header _ _ _ (by decide) (by decide) ht24, dispatch_rdispatch,
      decode_rdispatch]
    simp only [readByte, ok_bind, List.append_assoc]
    rw [decode_contexts_round contexts _ hcl hcs]
    simp
  | RdispatchError tag contexts error =>
    simp only [Message.wellFormed, decide_eq_true_eq] at hwf
    simp only [Message.sizesOk, Bool.and_eq_true, decide_eq_true_eq] at hsz
    obtain ⟨hcl, hcs⟩ := hsz
    simp only [Message.tag] at hlegal
    have ht24 := legal_lt_u24 _ hwf hlegal
    rw [encode_nonpre _ (by simpa [Message.tag]) (by simp), ok_bind]
    simp only [Message.typ, Message.tag, Message.buf]
    rw [decodeFrame_header _ _ _ (by decide) (by decide) ht24, dispatch_rdispatch,
      decode_rdispatch]
    simp only [readByte, ok_bind, List.append_assoc]
    rw [decode_contexts_round contexts _ hcl hcs]
    simp
  | RdispatchNack tag contexts =>
    simp only [Message.wellFormed, decide_eq_true_eq] at hwf
    simp only [Message.sizesOk, Bool.and_eq_true, decide_eq_true_eq] at hsz
    obtain ⟨hcl, hcs⟩ := hsz
    simp only [Message.tag] at hlegal
    have ht24 := legal_lt_u24 _ hwf hlegal
    rw [encode_nonpre _ (by simpa [Message.tag]) (by simp), ok_bind]
    simp only [Message.typ, Message.tag, Message.buf]
    rw [decodeFrame_header _ _ _ (by decide) (by decide) ht24, dispatch_rdispatch,
      decode_rdispatch]
    simp only [readByte, ok_bind]
    have hnil : encodeCtxPairs contexts = encodeCtxPairs contexts ++ ([] : List Nat) := by
      simp
    rw [hnil, decode_contexts_round contexts [] hcl hcs]
    simp
  | Tdrain tag =>
    simp only [Message.wellFormed, decide_eq_true_eq] at hwf
    simp only [Message.tag] at hlegal
    have ht24 := legal_lt_u24 _ hwf hlegal
    rw [encode_nonpre _ (by simpa [Message.tag]) (by simp), ok_bind]
    simp only [Message.typ, Message.tag, Message.buf]
    rw [decodeFrame_header _ _ _ (by decide) (by decide) ht24, dispatch_tdrain]
  | Rdrain tag =>
    simp only [Message.wellFormed, decide_eq_true_eq] at hwf
    simp only [Message.tag] at hlegal
    have ht24 := legal_lt_u24 _ hwf hlegal
    rw [encode_nonpre _ (by simpa [Message.tag]) (by simp), ok_bind]
    simp only [Message.typ, Message.tag, Message.buf]
    rw [decodeFrame_header _ _ _ (by decide) (by decide) ht24, dispatch_rdrain]
  | Tping tag =>
    simp only [Message.wellFormed, decide_eq_true_eq] at hwf
    simp only [Message.tag] at hlegal
    have ht24 := legal_lt_u24 _ hwf hlegal
    rw [encode_nonpre _ (by simpa [Message.tag]) (by simp), ok_bind]
    simp only [Message.typ, Message.tag, Message.buf]
    rw [decodeFrame_header _ _ _ (by decide) (by decide) ht24, dispatch_tping]
  | Rping tag =>
    simp only [Message.wellFormed, decide_eq_true_eq] at hwf
    simp only [Message.tag] at hlegal
    have ht24 := legal_lt_u24 _ hwf hlegal
    rw [encode_nonpre _ (by simpa [Message.tag]) (by simp), ok_bind]
    simp only [Message.typ, Message.tag, Message.buf]
    rw [decodeFrame_header _ _ _ (by decide) (by decide) ht24, dispatch_rping]
  | Rerr tag error =>
    simp only [Message.wellFormed, decide_eq_true_eq] at hwf
    simp only [Message.tag] at hlegal
    have ht24 := legal_lt_u24 _ hwf hlegal
    rw [encode_nonpre _ (by simpa [Message.tag]) (by simp), ok_bind]
    simp only [Message.typ, Message.tag, Message.buf]
    rw [decodeFrame_header _ _ _ (by decide) (by decide) ht24, dispatch_bad_rerr]
    simp
  | Rdiscarded tag =>
    simp only [Message.wellFormed, decide_eq_true_eq] at hwf
    simp only [Message.tag] at hlegal
    have ht24 := legal_lt_u24 _ hwf hlegal
    rw [encode_nonpre _ (by simpa [Message.tag]) (by simp), ok_bind]
    simp only [Message.typ, Message.tag, Message.buf]
    rw [decodeFrame_header _ _ _ (by decide) (by decide) ht24, dispatch_rdiscarded]
  | Tdiscarded which why =>
    simp only [Message.roundtrippable, decide_eq_true_eq] at hrt
    rw [encode_nonpre _ (by simp only [Message.tag]; decide) (by simp), ok_bind]
    simp only [Message.typ, Message.tag, Message.buf]
    rw [decodeFrame_header _ _ _ (by decide) (by decide) (by decide),
      dispatch_bad_tdiscarded, decode_tdiscarded]
    simp only [from_utf8_val, ok_bind, pure_eq_ok, tdiscarded_which_round,
      Nat.mod_eq_of_lt hrt]
  | Tlease unit how_long =>
    simp only [Message.wellFormed, Bool.and_eq_true, decide_eq_true_eq] at hwf
    obtain ⟨hunit, hlong⟩ := hwf
    rw [encode_nonpre _ (by simp only [Message.tag]; decide) (by simp), ok_bind]
    simp only [Message.typ, Message.tag, Message.buf]
    rw [decodeFrame_header _ _ _ (by decide) (by decide) (by decide), dispatch_tlease,
      decode_tlease]
    rw [if_neg (by simp [u64be])]
    simp only [readByte, ok_bind]
    rw [readU64_u64be_nil how_long hlong]
    rfl

/-- C1 amended witness: a `Tdispatch` with duplicate context keys, zero bytes
and a delegation table round-trips exactly. -/
theorem roundtrip_amended_witness :
    (encode (.Tdispatch 5 [([0], [255, 0]), ([0], [])] ⟨[97], rfl⟩
        [(⟨[47], rfl⟩, ⟨[98], rfl⟩)] [9, 9]) >>= decodeFrame) =
      .ok (.Tdispatch 5 [([0], [255, 0]), ([0], [])] ⟨[97], rfl⟩
        [(⟨[47], rfl⟩, ⟨[98], rfl⟩)] [9, 9]) :=
  roundtrip_amended _ (by decide) (by decide) (by decide) (by decide)

/-! ## Fragmentation lemmas -/

theorem chunksGo_flatten (size fuel : Nat) (l : List Nat) (hs : 0 < size)
    (hf : l.length ≤ fuel) : (chunksGo size fuel l).flatten = l := by
  induction fuel generalizing l with
  | zero =>
    cases l with
    | nil => rfl
    | cons a t => simp at hf
  | succ f ih =>
    cases l with
    | nil => rfl
    | cons a t =>
      simp only [chunksGo, List.flatten_cons]
      rw [ih _ (by simp only [List.length_drop, List.length_cons] at hf ⊢; omega)]
      exact List.take_append_drop size (a :: t)

theorem ceil_div_step (len size : Nat) (hs : 0 < size) (h1 : 1 ≤ len) :
    (len - size + size - 1) / size + 1 = (len + size - 1) / size := by
  by_cases hc : len ≤ size
  · have e1 : len - size = 0 := by omega
    have e2 : len + size - 1 = (len - 1) + size := by omega
    rw [e1, e2, Nat.add_div_right _ hs, Nat.div_eq_of_lt (by omega),
      Nat.div_eq_of_lt (by omega)]
  · have e1 : len - size + size - 1 = (len - size - 1) + size := by omega
    have e2 : len + size - 1 = (len - 1) + size := by omega
    rw [e1, e2, Nat.add_div_right _ hs, Nat.add_div_right _ hs]
    have e3 : len - 1 = (len - size - 1) + size := by omega
    rw [e3, Nat.add_div_right _ hs]

theorem chunksGo_count (size fuel : Nat) (l : List Nat) (hs : 0 < size)
    (hf : l.length ≤ fuel) : (chunksGo size fuel l).length = (l.length + size - 1) / size := by
  induction fuel generalizing l with
  | zero =>
    cases l with
    | nil =>
      simp only [chunksGo, List.length_nil]
      exact (Nat.div_eq_of_lt (by omega)).symm
    | cons a t => simp at hf
  | succ f ih =>
    cases l with
    | nil =>
      simp only [chunksGo, List.length_nil]
      exact (Nat.div_eq_of_lt (by omega)).symm
    | cons a t =>
      simp only [chunksGo, List.length_cons]
      rw [ih _ (by simp only [List.length_drop, List.length_cons] at hf ⊢; omega), List.length_drop, List.length_cons]
      exact ceil_div_step (t.length + 1) size hs (by omega)

theorem chunksGo_sizes (size fuel : Nat) (l : List Nat) (hs : 0 < size)
    (hf : l.length ≤ fuel) : ∀ c ∈ chunksGo size fuel l, c.length ≤ size := by
  induction fuel generalizing l with
  | zero =>
    cases l with
    | nil => intro c hc; simp [chunksGo] at hc
    | cons a t => simp at hf
  | succ f ih =>
    cases l with
    | nil => intro c hc; simp [chunksGo] at hc
    | cons a t =>
      intro c hc
      simp only [chunksGo, List.mem_cons] at hc
      rcases hc with hc | hc
      · subst hc
        exact le_trans (List.length_take_le _ _) le_rfl
      · exact ih _ (by simp only [List.length_drop, List.length_cons] at hf ⊢; omega) c hc

theorem wrapFragments_length (typ : Int) (tag : Nat) (cs : List (List Nat)) :
    (wrapFragments typ tag cs).length = cs.length := by
  induction cs with
  | nil => rfl
  | cons c t ih =>
    cases t with
    | nil => rfl
    | cons c' t' =>
      simp only [wrapFragments, List.length_cons] at ih ⊢
      omega

theorem wrapFragments_tags (typ : Int) (tag : Nat) (cs : List (List Nat)) (h : cs ≠ []) :
    (wrapFragments typ tag cs).map MuxFrame.tag =
      List.replicate (cs.length - 1) (tags.set_msb tag) ++ [tag] := by
  induction cs with
  | nil => exact absurd rfl h
  | cons c t ih =>
    cases t with
    | nil => rfl
    | cons c' t' =>
      simp only [wrapFragments, List.map_cons, ih (by simp), List.length_cons]
      simp [List.replicate_succ]

theorem reassembleGo_wrap (typ : Int) (tag : Nat) (cs : List (List Nat)) (acc : List Nat)
    (h : cs ≠ []) (hset : tags.is_fragment (tags.set_msb tag) = true)
    (hclr : tags.is_fragment tag = false) :
    reassembleGo acc (wrapFragments typ tag cs) =
      decodeDispatch typ tag (acc ++ cs.flatten) := by
  induction cs generalizing acc with
  | nil => exact absurd rfl h
  | cons c t ih =>
    cases t with
    | nil =>
      simp [wrapFragments, reassembleGo, hclr]
    | cons c' t' =>
      simp only [wrapFragments, reassembleGo, hset, if_true, List.flatten_cons]
      rw [ih (acc ++ c) (by simp), List.append_assoc]
      rfl

/-- C4: For a message whose encoded body of length `L` exceeds the frame size
`F`, the spec's fragmentation splits it into `ceil(L/F)` chunks of at most `F`
bytes — every chunk but the last tagged with the original tag with bit 23 set
and the last with bit 23 clear — and reassembling the chunks in order and
decoding reproduces the exact original message. -/
theorem fragmentation_reassembly (m : Message) (F : Nat) (hF : 0 < F)
    (htag : Message.tag m < 8388608)
    (hdec : decodeDispatch (Message.typ m) (Message.tag m) (Message.buf m) = .ok m)
    (hL : F < (Message.buf m).length) :
    (wrapFragments (Message.typ m) (Message.tag m) (chunksOf F (Message.buf m))).length =
      ((Message.buf m).length + F - 1) / F ∧
    (wrapFragments (Message.typ m) (Message.tag m) (chunksOf F (Message.buf m))).map
        MuxFrame.tag =
      List.replicate ((chunksOf F (Message.buf m)).length - 1)
        (tags.set_msb (Message.tag m)) ++ [Message.tag m] ∧
    (∀ c ∈ chunksOf F (Message.buf m), c.length ≤ F) ∧
    tags.is_fragment (tags.set_msb (Message.tag m)) = true ∧
    tags.is_fragment (Message.tag m) = false ∧
    1 < (chunksOf F (Message.buf m)).length ∧
    reassemble (wrapFragments (Message.typ m) (Message.tag m)
      (chunksOf F (Message.buf m))) = .ok m := by
  have hcount : (chunksOf F (Message.buf m)).length =
      ((Message.buf m).length + F - 1) / F :=
    chunksGo_count F _ _ hF le_rfl
  have hflat : (chunksOf F (Message.buf m)).flatten = Message.buf m :=
    chunksGo_flatten F _ _ hF le_rfl
  have hlen2 : 1 < (chunksOf F (Message.buf m)).length := by
    rw [hcount]
    have e2 : (Message.buf m).length + F - 1 = ((Message.buf m).length - 1) + F := by omega
    rw [e2, Nat.add_div_right _ hF]
    have : 1 ≤ ((Message.buf m).length - 1) / F := (Nat.one_le_div_iff hF).mpr (by omega)
    omega
  have hne : chunksOf F (Message.buf m) ≠ [] := by
    intro hc
    rw [hc] at hlen2
    simp at hlen2
  refine ⟨(wrapFragments_length _ _ _).trans hcount,
    wrapFragments_tags _ _ _ hne, chunksGo_sizes F _ _ hF le_rfl,
    is_fragment_set_msb _ htag, is_fragment_of_lt _ htag, hlen2, ?_⟩
  rw [reassemble, reassembleGo_wrap _ _ _ _ hne (is_fragment_set_msb _ htag)
    (is_fragment_of_lt _ htag), List.nil_append, hflat, hdec]

/-- C4 witness: a `Treq` with a 4-byte body fragments at frame size 2 into two
frames and reassembles to the original. -/
theorem fragmentation_reassembly_witness :
    reassemble (wrapFragments (Message.typ (.Treq 2 [7, 8, 9]))
      (Message.tag (.Treq 2 [7, 8, 9])) (chunksOf 2 (Message.buf (.Treq 2 [7, 8, 9])))) =
      .ok (.Treq 2 [7, 8, 9]) :=
  (fragmentation_reassembly (.Treq 2 [7, 8, 9]) 2 (by decide) (by decide) (by decide)
    (by decide)).2.2.2.2.2.2

/-- C5 witness. -/
theorem legacy_alias_codes_witness :
    encode (.Rerr 3 ⟨[104], rfl⟩) = .ok [127, 0, 0, 3, 104] ∧
    encode (.Tdiscarded 5 ⟨[], rfl⟩) = .ok [194, 0, 0, 0, 0, 0, 5] := by
  constructor
  · exact (legacy_alias_codes.2.2.1 3 ⟨[104], rfl⟩ (by decide)).trans (by decide)
  · exact (legacy_alias_codes.2.2.2.1 5 ⟨[], rfl⟩).trans (by decide)

end MuxRs
